import Mathlib

/-
Verification development for the transaction-crafting core of a wallet CLI:
the fee model (src/traits/txn_fee.rs), the payment / sweep resolution command
(src/cmd/pay.rs), and the mnemonic decoder (src/mnemonic/mod.rs).

Machine integers (u64) are modelled as Nat; the unchecked u64 subtractions in
pay.rs are modelled with an explicit wrap-around (sub64 below) matching release
builds (debug builds panic on overflow in the same situations, neither returns
an error value).  rust_decimal values are modelled as exact rationals.
The canonical protobuf envelope encoding lives in the external helium_api
crate; it enters the model as an abstract size function `enc` giving the byte
length of the envelope encoding of a transaction.
-/

/- ===================== Fee model: src/traits/txn_fee.rs ===================== -/

/-- `TxnFeeConfig` from src/traits/txn_fee.rs (all u64 fields as Nat). -/
structure TxnFeeConfig where
  txn_fees : Bool
  txn_fee_multiplier : Nat
  staking_fee_txn_oui_v1 : Nat
  staking_fee_txn_oui_v1_per_address : Nat
  staking_fee_txn_add_gateway_v1 : Nat
  staking_fee_txn_assert_location_v1 : Nat
deriving Repr, DecidableEq

def LEGACY_STAKING_FEE : Nat := 1

def LEGACY_TXN_FEE : Nat := 0

/-- `TxnFeeConfig::legacy()`. -/
def TxnFeeConfig.legacy : TxnFeeConfig :=
  { txn_fees := false
    txn_fee_multiplier := 0
    staking_fee_txn_oui_v1 := LEGACY_STAKING_FEE
    staking_fee_txn_oui_v1_per_address := 0
    staking_fee_txn_add_gateway_v1 := LEGACY_STAKING_FEE
    staking_fee_txn_assert_location_v1 := LEGACY_STAKING_FEE }

/-- `TxnFeeConfig::dc_payload_size()`. -/
def TxnFeeConfig.dc_payload_size (c : TxnFeeConfig) : Nat :=
  if c.txn_fees then 24 else 1

/-- `calculate_txn_fee(payload_size, config)` from src/traits/txn_fee.rs. -/
def calculate_txn_fee (payload_size : Nat) (config : TxnFeeConfig) : Nat :=
  let dc_payload_size := config.dc_payload_size
  if payload_size ≤ dc_payload_size then 1
  else (payload_size + dc_payload_size - 1) / dc_payload_size

def TXN_FEE_SIGNATURE_SIZE : Nat := 64

/-- The all-zero signature placeholder `vec![0; TXN_FEE_SIGNATURE_SIZE]`. -/
def zeroSig : List Nat := List.replicate TXN_FEE_SIGNATURE_SIZE 0

/-- `Payment` from the helium_api crate as constructed in src/cmd/pay.rs:
payee bytes and an amount in bones. -/
structure Payment where
  payee : List Nat
  amount : Nat
deriving Repr, DecidableEq

/-- `BlockchainTxnPaymentV2` (fields as used in src/cmd/pay.rs lines 76-82). -/
structure BlockchainTxnPaymentV2 where
  payer : List Nat
  payments : List Payment
  nonce : Nat
  fee : Nat
  signature : List Nat
deriving Repr, DecidableEq

/-- The cleared copy built inside `impl_txn_fee!(BlockchainTxnPaymentV2, signature)`:
fee zeroed and the signature replaced by the 64-byte all-zero placeholder. -/
def BlockchainTxnPaymentV2.clearForFee (t : BlockchainTxnPaymentV2) : BlockchainTxnPaymentV2 :=
  { t with fee := 0, signature := zeroSig }

/-- `txn_fee` for payment-v2, with the byte length of the canonical envelope
encoding supplied by the abstract size function `enc` (external contract). -/
def BlockchainTxnPaymentV2.txnFee (enc : BlockchainTxnPaymentV2 → Nat)
    (t : BlockchainTxnPaymentV2) (config : TxnFeeConfig) : Nat :=
  calculate_txn_fee (enc t.clearForFee) config * config.txn_fee_multiplier

/-- `BlockchainTxnPaymentV1` (fields as constructed in the txn_fee.rs tests). -/
structure BlockchainTxnPaymentV1 where
  payee : List Nat
  payer : List Nat
  amount : Nat
  nonce : Nat
  fee : Nat
  signature : List Nat
deriving Repr, DecidableEq

def BlockchainTxnPaymentV1.clearForFee (t : BlockchainTxnPaymentV1) : BlockchainTxnPaymentV1 :=
  { t with fee := 0, signature := zeroSig }

def BlockchainTxnPaymentV1.txnFee (enc : BlockchainTxnPaymentV1 → Nat)
    (t : BlockchainTxnPaymentV1) (config : TxnFeeConfig) : Nat :=
  calculate_txn_fee (enc t.clearForFee) config * config.txn_fee_multiplier

/-- `BlockchainTxnCreateHtlcV1` (fields as constructed in the txn_fee.rs tests). -/
structure BlockchainTxnCreateHtlcV1 where
  amount : Nat
  fee : Nat
  payee : List Nat
  payer : List Nat
  address : List Nat
  hashlock : List Nat
  timelock : Nat
  nonce : Nat
  signature : List Nat
deriving Repr, DecidableEq

def BlockchainTxnCreateHtlcV1.clearForFee (t : BlockchainTxnCreateHtlcV1) :
    BlockchainTxnCreateHtlcV1 :=
  { t with fee := 0, signature := zeroSig }

def BlockchainTxnCreateHtlcV1.txnFee (enc : BlockchainTxnCreateHtlcV1 → Nat)
    (t : BlockchainTxnCreateHtlcV1) (config : TxnFeeConfig) : Nat :=
  calculate_txn_fee (enc t.clearForFee) config * config.txn_fee_multiplier

/-- `BlockchainTxnRedeemHtlcV1` (fields as constructed in the txn_fee.rs tests). -/
structure BlockchainTxnRedeemHtlcV1 where
  fee : Nat
  payee : List Nat
  address : List Nat
  preimage : List Nat
  signature : List Nat
deriving Repr, DecidableEq

def BlockchainTxnRedeemHtlcV1.clearForFee (t : BlockchainTxnRedeemHtlcV1) :
    BlockchainTxnRedeemHtlcV1 :=
  { t with fee := 0, signature := zeroSig }

def BlockchainTxnRedeemHtlcV1.txnFee (enc : BlockchainTxnRedeemHtlcV1 → Nat)
    (t : BlockchainTxnRedeemHtlcV1) (config : TxnFeeConfig) : Nat :=
  calculate_txn_fee (enc t.clearForFee) config * config.txn_fee_multiplier

/-- `BlockchainTxnSecurityExchangeV1` (fields as constructed in the txn_fee.rs tests). -/
structure BlockchainTxnSecurityExchangeV1 where
  payee : List Nat
  payer : List Nat
  amount : Nat
  nonce : Nat
  fee : Nat
  signature : List Nat
deriving Repr, DecidableEq

def BlockchainTxnSecurityExchangeV1.clearForFee (t : BlockchainTxnSecurityExchangeV1) :
    BlockchainTxnSecurityExchangeV1 :=
  { t with fee := 0, signature := zeroSig }

def BlockchainTxnSecurityExchangeV1.txnFee (enc : BlockchainTxnSecurityExchangeV1 → Nat)
    (t : BlockchainTxnSecurityExchangeV1) (config : TxnFeeConfig) : Nat :=
  calculate_txn_fee (enc t.clearForFee) config * config.txn_fee_multiplier

/-- `BlockchainTxnTokenBurnV1`. The fee impl in src/traits/txn_fee.rs line 116
clears `fee` and `signature`; the remaining fields come from the external
helium_api crate and play no role in fee computation. -/
structure BlockchainTxnTokenBurnV1 where
  payer : List Nat
  payee : List Nat
  amount : Nat
  nonce : Nat
  memo : Nat
  fee : Nat
  signature : List Nat
deriving Repr, DecidableEq

def BlockchainTxnTokenBurnV1.clearForFee (t : BlockchainTxnTokenBurnV1) :
    BlockchainTxnTokenBurnV1 :=
  { t with fee := 0, signature := zeroSig }

def BlockchainTxnTokenBurnV1.txnFee (enc : BlockchainTxnTokenBurnV1 → Nat)
    (t : BlockchainTxnTokenBurnV1) (config : TxnFeeConfig) : Nat :=
  calculate_txn_fee (enc t.clearForFee) config * config.txn_fee_multiplier

/-- `BlockchainTxnAddGatewayV1` (fields as constructed in the txn_fee.rs tests). -/
structure BlockchainTxnAddGatewayV1 where
  owner : List Nat
  gateway : List Nat
  payer : List Nat
  staking_fee : Nat
  fee : Nat
  owner_signature : List Nat
  gateway_signature : List Nat
  payer_signature : List Nat
deriving Repr, DecidableEq

/-- Cleared copy for `impl_txn_fee!((payer, BlockchainTxnAddGatewayV1),
owner_signature, gateway_signature)`: fee zeroed, both mandatory signatures
replaced by the 64-byte placeholder, and the payer signature emptied when the
payer field is empty and replaced by the placeholder otherwise
(`payer_sig_clear!(payer, txn)`). -/
def BlockchainTxnAddGatewayV1.clearForFee (t : BlockchainTxnAddGatewayV1) :
    BlockchainTxnAddGatewayV1 :=
  { t with fee := 0, owner_signature := zeroSig, gateway_signature := zeroSig,
           payer_signature := if t.payer = [] then [] else zeroSig }

def BlockchainTxnAddGatewayV1.txnFee (enc : BlockchainTxnAddGatewayV1 → Nat)
    (t : BlockchainTxnAddGatewayV1) (config : TxnFeeConfig) : Nat :=
  calculate_txn_fee (enc t.clearForFee) config * config.txn_fee_multiplier

/-- `impl_txn_staking_fee!(BlockchainTxnAddGatewayV1, staking_fee_txn_add_gateway_v1)`. -/
def BlockchainTxnAddGatewayV1.txnStakingFee (_t : BlockchainTxnAddGatewayV1)
    (config : TxnFeeConfig) : Nat :=
  config.staking_fee_txn_add_gateway_v1

/-- `BlockchainTxnAssertLocationV1`: the fee impl clears `fee`,
`owner_signature`, `gateway_signature` and applies the payer rule; the other
fields come from the external helium_api crate. -/
structure BlockchainTxnAssertLocationV1 where
  owner : List Nat
  gateway : List Nat
  payer : List Nat
  location : List Nat
  nonce : Nat
  staking_fee : Nat
  fee : Nat
  owner_signature : List Nat
  gateway_signature : List Nat
  payer_signature : List Nat
deriving Repr, DecidableEq

def BlockchainTxnAssertLocationV1.clearForFee (t : BlockchainTxnAssertLocationV1) :
    BlockchainTxnAssertLocationV1 :=
  { t with fee := 0, owner_signature := zeroSig, gateway_signature := zeroSig,
           payer_signature := if t.payer = [] then [] else zeroSig }

def BlockchainTxnAssertLocationV1.txnFee (enc : BlockchainTxnAssertLocationV1 → Nat)
    (t : BlockchainTxnAssertLocationV1) (config : TxnFeeConfig) : Nat :=
  calculate_txn_fee (enc t.clearForFee) config * config.txn_fee_multiplier

/-- `impl_txn_staking_fee!(BlockchainTxnAssertLocationV1, staking_fee_txn_assert_location_v1)`. -/
def BlockchainTxnAssertLocationV1.txnStakingFee (_t : BlockchainTxnAssertLocationV1)
    (config : TxnFeeConfig) : Nat :=
  config.staking_fee_txn_assert_location_v1

/-- `BlockchainTxnOuiV1` (fields as constructed in the txn_fee.rs tests). -/
structure BlockchainTxnOuiV1 where
  owner : List Nat
  payer : List Nat
  filter : List Nat
  addresses : List (List Nat)
  staking_fee : Nat
  requested_subnet_size : Nat
  fee : Nat
  oui : Nat
  owner_signature : List Nat
  payer_signature : List Nat
deriving Repr, DecidableEq

/-- Cleared copy for `impl_txn_fee!((payer, BlockchainTxnOuiV1), owner_signature)`. -/
def BlockchainTxnOuiV1.clearForFee (t : BlockchainTxnOuiV1) : BlockchainTxnOuiV1 :=
  { t with fee := 0, owner_signature := zeroSig,
           payer_signature := if t.payer = [] then [] else zeroSig }

def BlockchainTxnOuiV1.txnFee (enc : BlockchainTxnOuiV1 → Nat)
    (t : BlockchainTxnOuiV1) (config : TxnFeeConfig) : Nat :=
  calculate_txn_fee (enc t.clearForFee) config * config.txn_fee_multiplier

/-- `TxnStakingFee for BlockchainTxnOuiV1` (src/traits/txn_fee.rs lines 134-140). -/
def BlockchainTxnOuiV1.txnStakingFee (t : BlockchainTxnOuiV1) (config : TxnFeeConfig) : Nat :=
  config.staking_fee_txn_oui_v1 +
    t.requested_subnet_size * config.staking_fee_txn_oui_v1_per_address

/-- `BlockchainTxnStakeValidatorV1` (fields as constructed in
src/cmd/validators/stake.rs lines 32-38). -/
structure BlockchainTxnStakeValidatorV1 where
  address : List Nat
  owner : List Nat
  stake : Nat
  fee : Nat
  owner_signature : List Nat
deriving Repr, DecidableEq

/-- Modelled from the spec: the `TxnFee` impl for the stake-validator kind is
not among the source files (src/cmd/validators/stake.rs only calls it).  Per
the spec's fee algorithm, the copy priced has `fee = 0` and its single
signature-bearing field (`owner_signature`) replaced by the fixed-length
all-zero placeholder; there is no payer field on this kind. -/
def BlockchainTxnStakeValidatorV1.clearForFee (t : BlockchainTxnStakeValidatorV1) :
    BlockchainTxnStakeValidatorV1 :=
  { t with fee := 0, owner_signature := zeroSig }

/-- Modelled from the spec: fee of the stake-validator kind, with the envelope
byte size abstract as for the other kinds. -/
def BlockchainTxnStakeValidatorV1.txnFee (enc : BlockchainTxnStakeValidatorV1 → Nat)
    (t : BlockchainTxnStakeValidatorV1) (config : TxnFeeConfig) : Nat :=
  calculate_txn_fee (enc t.clearForFee) config * config.txn_fee_multiplier

/- ===================== Payment / sweep resolution: src/cmd/pay.rs ===================== -/

def U64 : Nat := 2 ^ 64

/-- Wrapping u64 subtraction.  For `a, b < U64` this is `a - b` when `b ≤ a`
and wraps around otherwise, matching Rust release builds; debug builds panic
on the same inputs.  Neither build returns an error value. -/
def sub64 (a b : Nat) : Nat := (U64 + a - b) % U64

/-- Account snapshot returned by `client.get_account` (helium_api `Account`,
fields used in src/cmd/pay.rs). -/
structure Account where
  balance : Nat
  dc_balance : Nat
  speculative_nonce : Nat
deriving Repr, DecidableEq

/-- Exact-rational model of a `rust_decimal::Decimal` value: numerator over a
positive denominator (no normalisation required). -/
structure Dec where
  n : Int
  d : Nat
deriving Repr, DecidableEq

/-- The rational a Dec denotes. -/
def Dec.toRat (x : Dec) : ℚ := (x.n : ℚ) / (x.d : ℚ)

/-- `<` on Decimal values (denominators positive). -/
def Dec.lt (x y : Dec) : Bool := x.n * (y.d : Int) < y.n * (x.d : Int)

/-- `Decimal::from_u64`. -/
def decFromU64 (v : Nat) : Dec := ⟨(v : Int), 1⟩

/-- Exact division of Decimal values: `x.n/x.d / (y.n/y.d) = x.n*y.d / (x.d*y.n)`,
with the sign moved to the numerator.  `rust_decimal` panics on division by
zero; a zero divisor is outside this model's use. -/
def Dec.div (x y : Dec) : Dec :=
  if 0 ≤ y.n then ⟨x.n * (y.d : Int), x.d * y.n.toNat⟩
  else ⟨-(x.n * (y.d : Int)), x.d * (-y.n).toNat⟩

/-- Multiplication by a natural constant (the scale-factor step). -/
def Dec.mulNat (x : Dec) (k : Nat) : Dec := ⟨x.n * (k : Int), x.d⟩

/-- `Decimal::ceil`: the least integer ≥ the value, as `-(⌊-n/d⌋)` via
floor division. -/
def Dec.ceil (x : Dec) : Int := -(Int.fdiv (-x.n) (x.d : Int))

/-- One predicted oracle price point (`time` in unix seconds, price as an
exact rational standing for the rust_decimal value). -/
structure OraclePrediction where
  time : Nat
  price : Dec
deriving Repr, DecidableEq

/-- The external client, modelled by the responses it would return.  Each
getter of the real `helium_api::Client` is a network call; the call sites are
recorded as `ClientCall` events in the functions below. -/
structure Client where
  account : Account
  txn_fee_config : TxnFeeConfig
  oracle_price_current : Dec
  oracle_price_predicted : List OraclePrediction
deriving Repr, DecidableEq

/-- Network calls made through the client, in the order they occur. -/
inductive ClientCall where
  | getAccount
  | getOraclePriceCurrent
  | getOraclePricePredicted
  | getTxnFees
  | submitTxn
deriving Repr, DecidableEq

/-- Failures of `calculate_remaining_hnt`: the two `Err(anyhow!(..))` arms
("Failed to cast bones_needed into u64" and "Failed to parse fee as Decimal"). -/
inductive CalcError where
  | castU64Failure
  | decimalParseFailure
deriving Repr, DecidableEq

/-- `Decimal::to_u64`: some for 0 ≤ i < 2^64, none otherwise. -/
def decimalToU64 (i : Int) : Option Nat :=
  if 0 ≤ i ∧ i < (U64 : Int) then some i.toNat else none

/-- `calculate_remaining_hnt` (src/cmd/pay.rs lines 238-302).  Returns the
client calls it makes, in order, together with its result.  The u64
subtractions are the wrapping `sub64`; `Decimal::from_u64` always succeeds so
the "Failed to parse fee as Decimal" arm is unreachable in the model;
`set_scale(scale - 3)` multiplies the decimal value by 1000 (the spec's fixed
scale-factor conversion; rust_decimal's scale bookkeeping would reject a
division result carrying fewer than 3 decimal places, a quirk outside this
exact-value model of the external crate). -/
def calculate_remaining_hnt (client : Client) (now : Nat) (account : Account)
    (pay_total fee oracle_window : Nat) : List ClientCall × Except CalcError Nat :=
  if account.dc_balance > fee then
    ([], Except.ok (sub64 account.balance pay_total))
  else
    let fetched : List ClientCall × Dec :=
      if oracle_window = 0 then
        ([ClientCall.getOraclePriceCurrent], client.oracle_price_current)
      else
        let oracle_prices := client.oracle_price_predicted.filter fun prediction =>
          if prediction.time < now then true
          else decide (prediction.time - now < oracle_window * 60)
        ([ClientCall.getOraclePricePredicted, ClientCall.getOraclePriceCurrent],
         oracle_prices.foldl
           (fun mx x => if Dec.lt mx x.price then x.price else mx)
           client.oracle_price_current)
    let hnt_needed : Dec := Dec.div (decFromU64 fee) fetched.2
    let scaled : Dec := hnt_needed.mulNat 1000
    match decimalToU64 scaled.ceil with
    | some bones_needed =>
        (fetched.1, Except.ok (sub64 (sub64 account.balance pay_total) bones_needed))
    | none => (fetched.1, Except.error CalcError.castU64Failure)

/-- `Amount` from src/cmd/pay.rs.  `hnt` carries the value already converted
to bones by `Hnt::to_bones` (string parsing is external CLI code). -/
inductive Amount where
  | hnt (bones : Nat)
  | sweep
deriving Repr, DecidableEq

/-- `Payee` from src/cmd/pay.rs: a parsed `<address>=<amount>` argument. -/
structure Payee where
  address : List Nat
  amount : Amount
deriving Repr, DecidableEq

/-- State accumulated while the payees iterator runs (src/cmd/pay.rs lines 52-75). -/
structure PayState where
  sweep_destination : Option (List Nat)
  pay_total : Nat
  payments : List Payment
deriving Repr, DecidableEq

/-- Outcomes that abort `Cmd::run`: the `panic!("Cannot sweep to two addresses
in the same transaction!")` (a process abort, not a `Result` error), or an
error propagated from `calculate_remaining_hnt` by `?`. -/
inductive PayFailure where
  | panicTwoSweeps
  | calc (e : CalcError)
deriving Repr, DecidableEq

/-- The payees loop body of src/cmd/pay.rs lines 55-75, as a recursion over
the payee list carrying `sweep_destination`, `pay_total` and the payments
built so far (in reverse). -/
def buildPaymentsGo : List Payee → Option (List Nat) → Nat → List Payment →
    Except PayFailure PayState
  | [], dest, total, acc => Except.ok ⟨dest, total, acc.reverse⟩
  | p :: rest, dest, total, acc =>
    match p.amount with
    | Amount.hnt a =>
        buildPaymentsGo rest dest (total + a) ({ payee := p.address, amount := a } :: acc)
    | Amount.sweep =>
        match dest with
        | none => buildPaymentsGo rest (some p.address) total
            ({ payee := p.address, amount := 0 } :: acc)
        | some _ => Except.error PayFailure.panicTwoSweeps

def buildPayments (payees : List Payee) : Except PayFailure PayState :=
  buildPaymentsGo payees none 0 []

/-- The sweep-update loop body (src/cmd/pay.rs lines 95-99 and 120-124):
every payment whose payee equals the sweep destination gets the new amount. -/
def updateSweep (dest : List Nat) (amount : Nat) (ps : List Payment) : List Payment :=
  ps.map fun payment =>
    if payment.payee = dest then { payment with amount := amount } else payment

/-- The unbounded `loop` of src/cmd/pay.rs lines 110-135, embedded with a
`fuel` bound: the second component is `none` when the loop has not terminated
within `fuel` iterations (the source imposes no cap of its own).  The first
component lists the client calls made. -/
def sweepLoop (fuel : Nat) (enc : BlockchainTxnPaymentV2 → Nat) (client : Client)
    (now : Nat) (account : Account) (pay_total oracle_window : Nat)
    (dest : List Nat) (txn : BlockchainTxnPaymentV2) (fee : Nat) :
    List ClientCall × Option (Except PayFailure BlockchainTxnPaymentV2) :=
  match fuel with
  | 0 => ([], none)
  | fuel + 1 =>
    let step := calculate_remaining_hnt client now account pay_total fee oracle_window
    match step.2 with
    | Except.error e => (step.1, some (Except.error (PayFailure.calc e)))
    | Except.ok sweep_amount =>
      let txn' := { txn with payments := updateSweep dest sweep_amount txn.payments }
      let new_fee := BlockchainTxnPaymentV2.txnFee enc txn' client.txn_fee_config
      if new_fee = fee then
        (step.1 ++ [ClientCall.getTxnFees], some (Except.ok { txn' with fee := fee }))
      else
        let rest := sweepLoop fuel enc client now account pay_total oracle_window dest txn' new_fee
        (step.1 ++ [ClientCall.getTxnFees] ++ rest.1, rest.2)

/-- The fee-resolution block of src/cmd/pay.rs lines 84-139 (the big
assignment to `txn.fee`), returning the client calls made and the transaction
as it stands right before signing.  In the manual-fee branch the source passes
`&txn.fee` (still 0 at that point) to `calculate_remaining_hnt`, not the
manual fee itself. -/
def resolveFee (fuel : Nat) (enc : BlockchainTxnPaymentV2 → Nat) (client : Client)
    (now : Nat) (account : Account) (pay_total : Nat) (dest : Option (List Nat))
    (oracle_window : Nat) (manual_fee : Option Nat) (txn : BlockchainTxnPaymentV2) :
    List ClientCall × Option (Except PayFailure BlockchainTxnPaymentV2) :=
  match manual_fee with
  | some f =>
    match dest with
    | some sweep_destination =>
      let step := calculate_remaining_hnt client now account pay_total txn.fee oracle_window
      match step.2 with
      | Except.error e => (step.1, some (Except.error (PayFailure.calc e)))
      | Except.ok amount =>
          (step.1, some (Except.ok
            { txn with payments := updateSweep sweep_destination amount txn.payments,
                       fee := f }))
    | none => ([], some (Except.ok { txn with fee := f }))
  | none =>
    match dest with
    | none =>
        ([ClientCall.getTxnFees],
         some (Except.ok
           { txn with fee := BlockchainTxnPaymentV2.txnFee enc txn client.txn_fee_config }))
    | some sweep_destination =>
      let fee0 := BlockchainTxnPaymentV2.txnFee enc txn client.txn_fee_config
      let rest := sweepLoop fuel enc client now account pay_total oracle_window
        sweep_destination txn fee0
      (ClientCall.getTxnFees :: rest.1, rest.2)

/-- `Cmd::run` (src/cmd/pay.rs lines 43-139) up to the point where the
transaction is about to be signed: fetch the account, build the payments,
assemble the draft, resolve fee and sweep amount.  Password entry, wallet
loading/decryption and signing are external.  The first component records the
client calls in order; note that `get_account` precedes payee processing. -/
def runPay (fuel : Nat) (enc : BlockchainTxnPaymentV2 → Nat) (client : Client)
    (now : Nat) (pubkey : List Nat) (payees : List Payee)
    (oracle_window : Nat) (manual_fee : Option Nat) :
    List ClientCall × Option (Except PayFailure BlockchainTxnPaymentV2) :=
  let account := client.account
  match buildPayments payees with
  | Except.error e => ([ClientCall.getAccount], some (Except.error e))
  | Except.ok st =>
    let txn : BlockchainTxnPaymentV2 :=
      { fee := 0, payments := st.payments, payer := pubkey,
        nonce := account.speculative_nonce + 1, signature := [] }
    let rest := resolveFee fuel enc client now account st.pay_total st.sweep_destination
      oracle_window manual_fee txn
    (ClientCall.getAccount :: rest.1, rest.2)

/- ===================== Mnemonic decoder: src/mnemonic/mod.rs ===================== -/

/-- `u8::to_ascii_lowercase` on a character: only ASCII A-Z is mapped. -/
def asciiLower (c : Char) : Char :=
  if 65 ≤ c.toNat ∧ c.toNat ≤ 90 then Char.ofNat (c.toNat + 32) else c

/-- The scanning loop of `Language::find_english_word` (src/mnemonic/mod.rs
lines 23-33), over an already-lowercased user word, carrying the running
index.  Strings are modelled as character lists; for ASCII input a Rust byte
slice `s[..4]` is the first four characters (the byte-level model below covers
the character-boundary question). -/
def findWordAux (uw : List Char) : List (List Char) → Nat → Option Nat
  | [], _ => none
  | list_word :: rest, idx =>
    if 4 ≤ uw.length ∧ 4 ≤ list_word.length ∧ uw.take 4 = list_word.take 4 then some idx
    else if uw = list_word then some idx
    else findWordAux uw rest (idx + 1)

/-- `Language::find_english_word(user_word)` with the wordlist (the
`include_str!` data file, not among the source files) as a parameter. -/
def find_english_word (wordlist : List (List Char)) (user_word : List Char) : Option Nat :=
  findWordAux (user_word.map asciiLower) wordlist 0

/-- Binary digits of `n`, most significant first (fuel-guarded division
recursion; `fuel ≥ n` suffices). -/
def binDigitsAux : Nat → Nat → List Char
  | 0, _ => []
  | fuel + 1, n =>
    if n = 0 then []
    else binDigitsAux fuel (n / 2) ++ [if n % 2 = 1 then '1' else '0']

/-- Binary rendering of a natural number, as `{:b}` prints it. -/
def natToBinary (n : Nat) : List Char :=
  if n = 0 then ['0'] else binDigitsAux n n

/-- `format!("{:011b}", idx)`: binary digits, zero-padded on the left to at
least 11 characters (no truncation for larger values). -/
def formatBinary11 (idx : Nat) : List Char :=
  let ds := natToBinary idx
  List.replicate (11 - ds.length) '0' ++ ds

/-- Error cases of `mnemonic_to_entropy` (the three `bail!`/`anyhow!` arms). -/
inductive MnemonicError where
  | invalidWordCount
  | wordNotFound (w : List Char)
  | invalidChecksum
deriving Repr, DecidableEq

/-- The `words.iter().map(..).collect::<Result<String>>()` step of
`mnemonic_to_entropy`: look every word up, render each found index as its
11-bit binary string and concatenate, stopping at the first unfound word. -/
def collectBits (wordlist : List (List Char)) : List (List Char) →
    Except MnemonicError (List Char)
  | [] => Except.ok []
  | w :: ws =>
    match find_english_word wordlist w with
    | none => Except.error (MnemonicError.wordNotFound w)
    | some idx =>
      match collectBits wordlist ws with
      | Except.error e => Except.error e
      | Except.ok rest => Except.ok (formatBinary11 idx ++ rest)

/-- `usize::from_str_radix(bin, 2)` on a chunk of binary digits (the chunks
produced below contain only '0' and '1', on which this model is exact). -/
def binary_to_bytes (bin : List Char) : Nat :=
  bin.foldl (fun acc c => acc * 2 + (if c = '1' then 1 else 0)) 0

/-- The `RE_BYTES` regex `(.{1,8})`: split a string into chunks of up to 8
characters. -/
def toChunks8 : List Char → List (List Char)
  | [] => []
  | c :: rest => (c :: rest).take 8 :: toChunks8 ((c :: rest).drop 8)
termination_by l => l.length
decreasing_by
  simp only [List.length_drop, List.length_cons]
  omega

/-- Filling `entropy_base = [0u8; 16]` from the 8-bit chunks (each parsed
value cast `as u8`), then duplicating it into both halves of the 32-byte
output.  For the reachable input (128 entropy bits) there are exactly 16
chunks; the model keeps the first 16 and zero-fills, where the source would
panic on an index past 15 (unreachable). -/
def entropyBytes (entropy_bits : List Char) : List Nat :=
  let vals := ((toChunks8 entropy_bits).map binary_to_bytes).map (· % 256)
  let base := vals.take 16 ++ List.replicate (16 - vals.length) 0
  base ++ base

/-- `mnemonic_to_entropy` (src/mnemonic/mod.rs lines 40-79), over an explicit
wordlist.  The divider index `((bits.len() as f64 / 33.0) * 32.0).floor()` is
modelled as `bits.length * 32 / 33` in Nat arithmetic, which agrees with the
f64 computation for every reachable length (132). -/
def mnemonic_to_entropy (wordlist : List (List Char)) (words : List (List Char)) :
    Except MnemonicError (List Nat) :=
  if words.length ≠ 12 then Except.error MnemonicError.invalidWordCount
  else
    match collectBits wordlist words with
    | Except.error e => Except.error e
    | Except.ok bits =>
      let divider_index := bits.length * 32 / 33
      let checksum_bits := bits.drop divider_index
      if checksum_bits ≠ ['0', '0', '0', '0'] then Except.error MnemonicError.invalidChecksum
      else Except.ok (entropyBytes (bits.take divider_index))

/- Byte-level model of `find_english_word`, for the character-boundary safety
question: Rust strings are UTF-8 byte sequences and `s[..4]` panics unless
byte index 4 falls on a character boundary. -/

/-- `u8::to_ascii_lowercase` on a byte. -/
def asciiLowerByte (b : Nat) : Nat :=
  if 65 ≤ b ∧ b ≤ 90 then b + 32 else b

/-- Byte index `i` is a char boundary of UTF-8 string `s`: at or past the end,
or the byte there is not a continuation byte (0x80-0xBF). -/
def isCharBoundary (s : List Nat) (i : Nat) : Bool :=
  match s.drop i with
  | [] => true
  | b :: _ => !(128 ≤ b && b < 192)

/-- Byte-level `find_english_word` loop: `Except.error ()` models a panic from
slicing off a character boundary; otherwise the behaviour of `findWordAux`
on the byte strings. -/
def findWordBytesAux (uw : List Nat) : List (List Nat) → Nat → Except Unit (Option Nat)
  | [], _ => Except.ok none
  | list_word :: rest, idx =>
    if 4 ≤ uw.length ∧ 4 ≤ list_word.length then
      if isCharBoundary uw 4 && isCharBoundary list_word 4 then
        if uw.take 4 = list_word.take 4 then Except.ok (some idx)
        else if uw = list_word then Except.ok (some idx)
        else findWordBytesAux uw rest (idx + 1)
      else Except.error ()
    else
      if uw = list_word then Except.ok (some idx)
      else findWordBytesAux uw rest (idx + 1)

/-- Byte-level `find_english_word`. -/
def findWordBytes (wordlist : List (List Nat)) (user_word : List Nat) :
    Except Unit (Option Nat) :=
  findWordBytesAux (user_word.map asciiLowerByte) wordlist 0

deriving instance DecidableEq for Except

/- ===================== Concrete inputs and frame predicates ===================== -/

/-- Whether a parsed amount is the sweep marker. -/
def isSweep : Amount → Bool
  | Amount.sweep => true
  | Amount.hnt _ => false

/-- Number of sweep payees among the parsed arguments. -/
def countSweeps (payees : List Payee) : Nat :=
  (payees.filter fun p => isSweep p.amount).length

/-- An active fee configuration with unit multiplier, used by the concrete
scenarios below. -/
def activeCfg1 : TxnFeeConfig :=
  { txn_fees := true, txn_fee_multiplier := 1, staking_fee_txn_oui_v1 := 0,
    staking_fee_txn_oui_v1_per_address := 0, staking_fee_txn_add_gateway_v1 := 0,
    staking_fee_txn_assert_location_v1 := 0 }

/-- A pathological envelope-size function whose value flips with the parity of
the payment amounts: fee 1 when the sweep amount is even, fee 2 when odd
(under `activeCfg1`).  The sweep amount the remaining-balance rule produces
from fee f is `10 - f`, so the fee oscillates 1, 2, 1, 2, ... forever. -/
def oscEnc : BlockchainTxnPaymentV2 → Nat := fun t =>
  if (t.payments.foldl (fun a p => a + p.amount) 0) % 2 = 1 then 25 else 1

/-- Client for the oscillation scenario: balance 10, no data credits, oracle
price 1000 (so `tokens_needed = fee`). -/
def oscClient : Client :=
  { account := { balance := 10, dc_balance := 0, speculative_nonce := 0 },
    txn_fee_config := activeCfg1, oracle_price_current := ⟨1000, 1⟩,
    oracle_price_predicted := [] }

/-- Client for the manual-fee scenario: balance 10^9 bones, 5 data credits
(far fewer than the 30000 DC manual fee), oracle price 7. -/
def c1Client : Client :=
  { account := { balance := 1000000000, dc_balance := 5, speculative_nonce := 0 },
    txn_fee_config := activeCfg1, oracle_price_current := ⟨7, 1⟩,
    oracle_price_predicted := [] }

/-- Client for the underfunded scenario: balance 5 bones, 100 data credits. -/
def c3Client : Client :=
  { account := { balance := 5, dc_balance := 100, speculative_nonce := 0 },
    txn_fee_config := activeCfg1, oracle_price_current := ⟨1000, 1⟩,
    oracle_price_predicted := [] }

/-- Client for the two-sweep scenario (its data is never reached). -/
def c4Client : Client :=
  { account := { balance := 0, dc_balance := 0, speculative_nonce := 0 },
    txn_fee_config := activeCfg1, oracle_price_current := ⟨1000, 1⟩,
    oracle_price_predicted := [] }

/-- Client for the frame scenario: balance 100 bones, 5 data credits. -/
def c7Client : Client :=
  { account := { balance := 100, dc_balance := 5, speculative_nonce := 0 },
    txn_fee_config := activeCfg1, oracle_price_current := ⟨1000, 1⟩,
    oracle_price_predicted := [] }

/-- Frame relation between the payments as constructed and the payments after
sweep updates with destination `dest`: same length, payees unchanged, and
every payment whose payee is not `dest` wholly unchanged. -/
def FrameOK (dest : List Nat) (orig cur : List Payment) : Prop :=
  cur.length = orig.length ∧
  ∀ i (hi : i < orig.length) (hi2 : i < cur.length),
    (cur[i].payee = orig[i].payee) ∧
    (orig[i].payee ≠ dest → cur[i] = orig[i])

/- ===================== Helper lemmas ===================== -/

theorem dc_payload_size_pos (config : TxnFeeConfig) : 0 < config.dc_payload_size := by
  unfold TxnFeeConfig.dc_payload_size
  split <;> norm_num

/-- The source's `if payload_size <= unit { 1 } else { ceil-div }` equals
`max 1 (ceil(payload_size / unit))` (unit is 24 or 1, hence positive). -/
theorem calculate_txn_fee_eq_max (payload_size : Nat) (config : TxnFeeConfig) :
    calculate_txn_fee payload_size config =
      max 1 ((payload_size + config.dc_payload_size - 1) / config.dc_payload_size) := by
  have hu : 0 < config.dc_payload_size := dc_payload_size_pos config
  unfold calculate_txn_fee
  by_cases h : payload_size ≤ config.dc_payload_size
  · have hlt : (payload_size + config.dc_payload_size - 1) / config.dc_payload_size < 2 := by
      rw [Nat.div_lt_iff_lt_mul hu]
      omega
    simp only [h, if_pos]
    omega
  · have hge : 1 ≤ (payload_size + config.dc_payload_size - 1) / config.dc_payload_size := by
      rw [Nat.le_div_iff_mul_le hu]
      omega
    simp only [h, if_neg, if_false]
    omega

/- ===================== C5 / C6 ===================== -/

/-- C5: for every draft kind implementing the fee trait, the fee is
`max(1, ceil(L / u)) * txn_fee_multiplier`, where `u = dc_payload_size`
(24 when fees are active, 1 otherwise) and `L` is the byte length of the
canonical envelope encoding of the copy of the draft with fee zeroed, every
mandatory signature slot replaced by the 64-byte all-zero vector, and — for
the kinds with an optional payer signature — the payer-signature slot the
64-byte all-zero vector when the payer is non-empty and empty otherwise.
All other fields of the priced copy are those of the draft. -/
theorem c5_txn_fee_formula (config : TxnFeeConfig) :
    (config.dc_payload_size = if config.txn_fees then 24 else 1) ∧
    (∀ (enc : BlockchainTxnPaymentV1 → Nat) (t : BlockchainTxnPaymentV1),
      BlockchainTxnPaymentV1.txnFee enc t config =
        max 1 ((enc t.clearForFee + config.dc_payload_size - 1) / config.dc_payload_size)
          * config.txn_fee_multiplier ∧
      t.clearForFee = { t with fee := 0, signature := List.replicate 64 0 }) ∧
    (∀ (enc : BlockchainTxnPaymentV2 → Nat) (t : BlockchainTxnPaymentV2),
      BlockchainTxnPaymentV2.txnFee enc t config =
        max 1 ((enc t.clearForFee + config.dc_payload_size - 1) / config.dc_payload_size)
          * config.txn_fee_multiplier ∧
      t.clearForFee = { t with fee := 0, signature := List.replicate 64 0 }) ∧
    (∀ (enc : BlockchainTxnCreateHtlcV1 → Nat) (t : BlockchainTxnCreateHtlcV1),
      BlockchainTxnCreateHtlcV1.txnFee enc t config =
        max 1 ((enc t.clearForFee + config.dc_payload_size - 1) / config.dc_payload_size)
          * config.txn_fee_multiplier ∧
      t.clearForFee = { t with fee := 0, signature := List.replicate 64 0 }) ∧
    (∀ (enc : BlockchainTxnRedeemHtlcV1 → Nat) (t : BlockchainTxnRedeemHtlcV1),
      BlockchainTxnRedeemHtlcV1.txnFee enc t config =
        max 1 ((enc t.clearForFee + config.dc_payload_size - 1) / config.dc_payload_size)
          * config.txn_fee_multiplier ∧
      t.clearForFee = { t with fee := 0, signature := List.replicate 64 0 }) ∧
    (∀ (enc : BlockchainTxnSecurityExchangeV1 → Nat) (t : BlockchainTxnSecurityExchangeV1),
      BlockchainTxnSecurityExchangeV1.txnFee enc t config =
        max 1 ((enc t.clearForFee + config.dc_payload_size - 1) / config.dc_payload_size)
          * config.txn_fee_multiplier ∧
      t.clearForFee = { t with fee := 0, signature := List.replicate 64 0 }) ∧
    (∀ (enc : BlockchainTxnTokenBurnV1 → Nat) (t : BlockchainTxnTokenBurnV1),
      BlockchainTxnTokenBurnV1.txnFee enc t config =
        max 1 ((enc t.clearForFee + config.dc_payload_size - 1) / config.dc_payload_size)
          * config.txn_fee_multiplier ∧
      t.clearForFee = { t with fee := 0, signature := List.replicate 64 0 }) ∧
    (∀ (enc : BlockchainTxnAddGatewayV1 → Nat) (t : BlockchainTxnAddGatewayV1),
      BlockchainTxnAddGatewayV1.txnFee enc t config =
        max 1 ((enc t.clearForFee + config.dc_payload_size - 1) / config.dc_payload_size)
          * config.txn_fee_multiplier ∧
      t.clearForFee = { t with
                          fee := 0
                          owner_signature := List.replicate 64 0
                          gateway_signature := List.replicate 64 0
                          payer_signature :=
                            if t.payer = [] then [] else List.replicate 64 0 }) ∧
    (∀ (enc : BlockchainTxnAssertLocationV1 → Nat) (t : BlockchainTxnAssertLocationV1),
      BlockchainTxnAssertLocationV1.txnFee enc t config =
        max 1 ((enc t.clearForFee + config.dc_payload_size - 1) / config.dc_payload_size)
          * config.txn_fee_multiplier ∧
      t.clearForFee = { t with
                          fee := 0
                          owner_signature := List.replicate 64 0
                          gateway_signature := List.replicate 64 0
                          payer_signature :=
                            if t.payer = [] then [] else List.replicate 64 0 }) ∧
    (∀ (enc : BlockchainTxnOuiV1 → Nat) (t : BlockchainTxnOuiV1),
      BlockchainTxnOuiV1.txnFee enc t config =
        max 1 ((enc t.clearForFee + config.dc_payload_size - 1) / config.dc_payload_size)
          * config.txn_fee_multiplier ∧
      t.clearForFee = { t with
                          fee := 0
                          owner_signature := List.replicate 64 0
                          payer_signature :=
                            if t.payer = [] then [] else List.replicate 64 0 }) ∧
    (∀ (enc : BlockchainTxnStakeValidatorV1 → Nat) (t : BlockchainTxnStakeValidatorV1),
      BlockchainTxnStakeValidatorV1.txnFee enc t config =
        max 1 ((enc t.clearForFee + config.dc_payload_size - 1) / config.dc_payload_size)
          * config.txn_fee_multiplier ∧
      t.clearForFee = { t with fee := 0, owner_signature := List.replicate 64 0 }) := by
  refine ⟨rfl, ?_, ?_, ?_, ?_, ?_, ?_, ?_, ?_, ?_, ?_⟩ <;>
    intro enc t <;>
    refine ⟨?_, rfl⟩ <;>
    simp only [BlockchainTxnPaymentV1.txnFee, BlockchainTxnPaymentV2.txnFee,
      BlockchainTxnCreateHtlcV1.txnFee, BlockchainTxnRedeemHtlcV1.txnFee,
      BlockchainTxnSecurityExchangeV1.txnFee, BlockchainTxnTokenBurnV1.txnFee,
      BlockchainTxnAddGatewayV1.txnFee, BlockchainTxnAssertLocationV1.txnFee,
      BlockchainTxnOuiV1.txnFee, BlockchainTxnStakeValidatorV1.txnFee,
      calculate_txn_fee_eq_max]

/-- C6: with the legacy configuration every draft kind's transaction fee is 0,
and every kind that defines a staking fee (add-gateway, assert-location, oui)
has legacy staking fee 1 — for the oui kind, for every requested_subnet_size. -/
theorem c6_legacy_fee_values :
    (∀ (enc : BlockchainTxnPaymentV1 → Nat) (t : BlockchainTxnPaymentV1),
      BlockchainTxnPaymentV1.txnFee enc t TxnFeeConfig.legacy = 0) ∧
    (∀ (enc : BlockchainTxnPaymentV2 → Nat) (t : BlockchainTxnPaymentV2),
      BlockchainTxnPaymentV2.txnFee enc t TxnFeeConfig.legacy = 0) ∧
    (∀ (enc : BlockchainTxnCreateHtlcV1 → Nat) (t : BlockchainTxnCreateHtlcV1),
      BlockchainTxnCreateHtlcV1.txnFee enc t TxnFeeConfig.legacy = 0) ∧
    (∀ (enc : BlockchainTxnRedeemHtlcV1 → Nat) (t : BlockchainTxnRedeemHtlcV1),
      BlockchainTxnRedeemHtlcV1.txnFee enc t TxnFeeConfig.legacy = 0) ∧
    (∀ (enc : BlockchainTxnSecurityExchangeV1 → Nat) (t : BlockchainTxnSecurityExchangeV1),
      BlockchainTxnSecurityExchangeV1.txnFee enc t TxnFeeConfig.legacy = 0) ∧
    (∀ (enc : BlockchainTxnTokenBurnV1 → Nat) (t : BlockchainTxnTokenBurnV1),
      BlockchainTxnTokenBurnV1.txnFee enc t TxnFeeConfig.legacy = 0) ∧
    (∀ (enc : BlockchainTxnAddGatewayV1 → Nat) (t : BlockchainTxnAddGatewayV1),
      BlockchainTxnAddGatewayV1.txnFee enc t TxnFeeConfig.legacy = 0) ∧
    (∀ (enc : BlockchainTxnAssertLocationV1 → Nat) (t : BlockchainTxnAssertLocationV1),
      BlockchainTxnAssertLocationV1.txnFee enc t TxnFeeConfig.legacy = 0) ∧
    (∀ (enc : BlockchainTxnOuiV1 → Nat) (t : BlockchainTxnOuiV1),
      BlockchainTxnOuiV1.txnFee enc t TxnFeeConfig.legacy = 0) ∧
    (∀ (enc : BlockchainTxnStakeValidatorV1 → Nat) (t : BlockchainTxnStakeValidatorV1),
      BlockchainTxnStakeValidatorV1.txnFee enc t TxnFeeConfig.legacy = 0) ∧
    (∀ t : BlockchainTxnAddGatewayV1,
      t.txnStakingFee TxnFeeConfig.legacy = 1) ∧
    (∀ t : BlockchainTxnAssertLocationV1,
      t.txnStakingFee TxnFeeConfig.legacy = 1) ∧
    (∀ t : BlockchainTxnOuiV1,
      t.txnStakingFee TxnFeeConfig.legacy = 1) := by
  refine ⟨?_, ?_, ?_, ?_, ?_, ?_, ?_, ?_, ?_, ?_, ?_, ?_, ?_⟩ <;> intro enc <;>
    first
    | (intro t
       simp [BlockchainTxnPaymentV1.txnFee, BlockchainTxnPaymentV2.txnFee,
         BlockchainTxnCreateHtlcV1.txnFee, BlockchainTxnRedeemHtlcV1.txnFee,
         BlockchainTxnSecurityExchangeV1.txnFee, BlockchainTxnTokenBurnV1.txnFee,
         BlockchainTxnAddGatewayV1.txnFee, BlockchainTxnAssertLocationV1.txnFee,
         BlockchainTxnOuiV1.txnFee, BlockchainTxnStakeValidatorV1.txnFee,
         TxnFeeConfig.legacy])
    | simp [BlockchainTxnAddGatewayV1.txnStakingFee, BlockchainTxnAssertLocationV1.txnStakingFee,
        BlockchainTxnOuiV1.txnStakingFee, TxnFeeConfig.legacy, LEGACY_STAKING_FEE]

/- ===================== C1 / C3 (code bugs) / C2 counterexample ===================== -/

/-- C1: with a manual fee (30000) and a sweep payee, the source passes
`&txn.fee` — still 0 at that point — to `calculate_remaining_hnt` instead of
the manual fee: with `dc_balance = 5 ≤ 30000` the claim requires the
token-burn branch with tokens_needed derived from the manual fee, but the
code compares `dc_balance > 0`, takes the data-credit branch, makes no oracle
call and sweeps the whole remaining balance 10^9 (first conjunct), while the
remaining-balance rule applied with the manual fee constant (second conjunct)
runs the token-burn branch, reserves ceil(30000*1000/7) = 4285715 bones and
sweeps 995714285.  The final draft still carries fee 30000. -/
theorem c1_manual_fee_sweep_ignores_manual_fee :
    runPay 1 (fun _ => 0) c1Client 0 [0] [⟨[1], Amount.sweep⟩] 0 (some 30000) =
      ([ClientCall.getAccount],
       some (Except.ok { payer := [0],
                         payments := [{ payee := [1], amount := 1000000000 }],
                         nonce := 1, fee := 30000, signature := [] })) ∧
    calculate_remaining_hnt c1Client 0 c1Client.account 0 30000 0 =
      ([ClientCall.getOraclePriceCurrent], Except.ok 995714285) := by
  decide

/-- C3: when the sweep amount would be negative, `calculate_remaining_hnt`
does not fail with an insufficient-funds error: the unchecked u64 subtraction
wraps (panics in debug builds) and the function returns `Ok` with a huge
amount.  First conjunct: data-credit branch, balance 5 < pay_total 10 gives
`Ok (2^64 - 5)`.  Second conjunct: token-burn branch, balance 5 <
pay_total 3 + tokens_needed 4 gives `Ok (2^64 - 2)`. -/
theorem c3_insufficient_funds_wraps_instead_of_error :
    calculate_remaining_hnt c3Client 0 c3Client.account 10 1 120 =
      ([], Except.ok 18446744073709551611) ∧
    calculate_remaining_hnt c3Client 0
        { balance := 5, dc_balance := 0, speculative_nonce := 0 } 3 4 0 =
      ([ClientCall.getOraclePriceCurrent], Except.ok 18446744073709551614) := by
  decide

/-- C2 counterexample: the sweep loop of `Cmd::run` has no iteration cap and
never reports an internal error.  With the pathological fee function `oscEnc`
(fee 1 on even sweep amounts, 2 on odd ones) and `oscClient` (balance 10 ≥
fixed total 0 + worst-case fee 2), the fee oscillates 1, 2, 1, 2, ... and the
loop is still running after 100 iterations — far beyond any small-constant
safety cap — with no error value produced. -/
theorem c2_loop_exceeds_any_cap_without_error :
    (runPay 100 oscEnc oscClient 0 [0] [⟨[1], Amount.sweep⟩] 0 none).2 = none := by
  decide

/- ===================== C2 amended: fixed point on termination ===================== -/

/-- The fee of a payment-v2 draft is priced on a fee-cleared copy, so writing
any value into the fee field does not change its fee. -/
theorem txnFee_set_fee (enc : BlockchainTxnPaymentV2 → Nat) (t : BlockchainTxnPaymentV2)
    (f : Nat) (config : TxnFeeConfig) :
    BlockchainTxnPaymentV2.txnFee enc { t with fee := f } config =
      BlockchainTxnPaymentV2.txnFee enc t config := rfl

/-- If the sweep loop terminates normally, the fee it returns equals the fee
of the returned draft (whose sweep amount was computed from that same fee):
the loop's exit condition `new_fee == fee` is exactly the fixed point. -/
theorem sweepLoop_fee_fixed (enc : BlockchainTxnPaymentV2 → Nat) (client : Client)
    (now : Nat) (account : Account) (pt ow : Nat) (dest : List Nat) :
    ∀ (fuel : Nat) (txn : BlockchainTxnPaymentV2) (fee : Nat) (cs : List ClientCall)
      (txn' : BlockchainTxnPaymentV2),
      sweepLoop fuel enc client now account pt ow dest txn fee =
        (cs, some (Except.ok txn')) →
      txn'.fee = BlockchainTxnPaymentV2.txnFee enc txn' client.txn_fee_config := by
  intro fuel
  induction fuel with
  | zero =>
    intro txn fee cs txn' h
    simp [sweepLoop] at h
  | succ n ih =>
    intro txn fee cs txn' h
    simp only [sweepLoop] at h
    split at h
    · exact absurd (congrArg Prod.snd h) (by simp)
    · split at h
      · have h2 := congrArg Prod.snd h
        simp only [Option.some.injEq, Except.ok.injEq] at h2
        subst h2
        rename_i amt heq hnf
        simpa [txnFee_set_fee] using hnf.symm
      · rename_i amt heq hnf
        simp only [Prod.mk.injEq] at h
        have h3 : sweepLoop n enc client now account pt ow dest
            { txn with payments := updateSweep dest amt txn.payments }
            (BlockchainTxnPaymentV2.txnFee enc
              { txn with payments := updateSweep dest amt txn.payments }
              client.txn_fee_config) =
            ((sweepLoop n enc client now account pt ow dest
              { txn with payments := updateSweep dest amt txn.payments }
              (BlockchainTxnPaymentV2.txnFee enc
                { txn with payments := updateSweep dest amt txn.payments }
                client.txn_fee_config)).1,
             some (Except.ok txn')) := by
          rw [← h.2]
        exact ih _ _ _ _ h3

/-- C2 (amended): the loop imposes no iteration cap and reports no internal
error (see the counterexample for the unbounded case); whenever `Cmd::run`
without a manual fee completes fee resolution normally, the fee written into
the draft equals the Fee Model fee of the returned draft — i.e. of the draft
with the resolved sweep amount written into the sweep payment — so the fixed
point does hold on normal termination, with or without a sweep payee. -/
theorem c2_fee_is_fixed_point_on_normal_termination (fuel : Nat)
    (enc : BlockchainTxnPaymentV2 → Nat) (client : Client) (now : Nat)
    (pubkey : List Nat) (payees : List Payee) (oracle_window : Nat)
    (cs : List ClientCall) (txn : BlockchainTxnPaymentV2)
    (h : runPay fuel enc client now pubkey payees oracle_window none =
      (cs, some (Except.ok txn))) :
    txn.fee = BlockchainTxnPaymentV2.txnFee enc txn client.txn_fee_config := by
  simp only [runPay] at h
  split at h
  · exact absurd (congrArg Prod.snd h) (by simp)
  · rename_i st hst
    simp only [Prod.mk.injEq] at h
    have h2 := h.2
    simp only [resolveFee] at h2
    split at h2
    · simp only [Option.some.injEq, Except.ok.injEq] at h2
      subst h2
      exact (txnFee_set_fee enc _ _ _).symm
    · rename_i dest hdest
      have h3 : sweepLoop fuel enc client now client.account st.pay_total oracle_window dest
          { payer := pubkey, payments := st.payments,
            nonce := client.account.speculative_nonce + 1, fee := 0, signature := [] }
          (BlockchainTxnPaymentV2.txnFee enc
            { payer := pubkey, payments := st.payments,
              nonce := client.account.speculative_nonce + 1, fee := 0, signature := [] }
            client.txn_fee_config) =
          ((sweepLoop fuel enc client now client.account st.pay_total oracle_window dest
            { payer := pubkey, payments := st.payments,
              nonce := client.account.speculative_nonce + 1, fee := 0, signature := [] }
            (BlockchainTxnPaymentV2.txnFee enc
              { payer := pubkey, payments := st.payments,
                nonce := client.account.speculative_nonce + 1, fee := 0, signature := [] }
              client.txn_fee_config)).1,
           some (Except.ok txn)) := by
        rw [← h2]
      exact sweepLoop_fee_fixed enc client now client.account st.pay_total oracle_window
        dest fuel _ _ _ txn h3

/-- Closed instance for `c2_fee_is_fixed_point_on_normal_termination`: with a
constant envelope size 30 (fee 2 under `activeCfg1`) the loop of `oscClient`'s
scenario terminates on the second pass; the returned draft sweeps 8 bones and
its fee, 2, equals its own Fee Model fee. -/
theorem c2_fee_is_fixed_point_on_normal_termination_witness :
    runPay 5 (fun _ => 30) oscClient 0 [0] [⟨[1], Amount.sweep⟩] 0 none =
      ([ClientCall.getAccount, ClientCall.getTxnFees, ClientCall.getOraclePriceCurrent,
        ClientCall.getTxnFees],
       some (Except.ok { payer := [0], payments := [{ payee := [1], amount := 8 }],
                         nonce := 1, fee := 2, signature := [] })) ∧
    ({ payer := [0], payments := [{ payee := [1], amount := 8 }],
       nonce := 1, fee := 2, signature := [] } : BlockchainTxnPaymentV2).fee =
      BlockchainTxnPaymentV2.txnFee (fun _ => 30)
        { payer := [0], payments := [{ payee := [1], amount := 8 }],
          nonce := 1, fee := 2, signature := [] } oscClient.txn_fee_config :=
  ⟨by decide,
   c2_fee_is_fixed_point_on_normal_termination 5 (fun _ => 30) oscClient 0 [0]
     [⟨[1], Amount.sweep⟩] 0
     [ClientCall.getAccount, ClientCall.getTxnFees, ClientCall.getOraclePriceCurrent,
      ClientCall.getTxnFees]
     { payer := [0], payments := [{ payee := [1], amount := 8 }],
       nonce := 1, fee := 2, signature := [] }
     (by decide)⟩

/- ===================== C4: two sweep payees ===================== -/

/-- Once a sweep destination is recorded, any further sweep payee makes the
payees loop panic. -/
theorem buildPaymentsGo_sweep_set (l : List Payee) :
    ∀ (d : List Nat) (total : Nat) (acc : List Payment), 1 ≤ countSweeps l →
      buildPaymentsGo l (some d) total acc = Except.error PayFailure.panicTwoSweeps := by
  induction l with
  | nil =>
    intro d total acc h
    simp [countSweeps] at h
  | cons p rest ih =>
    intro d total acc h
    cases hp : p.amount with
    | hnt a =>
      simp only [buildPaymentsGo, hp]
      exact ih d (total + a) _ (by simpa [countSweeps, List.filter, hp, isSweep] using h)
    | sweep => simp only [buildPaymentsGo, hp]

/-- With at least two sweep payees among the arguments, building the payments
list panics. -/
theorem buildPayments_two_sweeps (l : List Payee) :
    ∀ (dacc : Option (List Nat)) (total : Nat) (acc : List Payment),
      (dacc = none → 2 ≤ countSweeps l) → (∀ d, dacc = some d → 1 ≤ countSweeps l) →
      buildPaymentsGo l dacc total acc = Except.error PayFailure.panicTwoSweeps := by
  induction l with
  | nil =>
    intro dacc total acc h2 h1
    cases dacc with
    | none => simpa [countSweeps] using h2 rfl
    | some d => simpa [countSweeps] using h1 d rfl
  | cons p rest ih =>
    intro dacc total acc h2 h1
    cases hp : p.amount with
    | hnt a =>
      simp only [buildPaymentsGo, hp]
      cases dacc with
      | none =>
        exact ih none (total + a) _
          (fun _ => by simpa [countSweeps, List.filter, hp, isSweep] using h2 rfl)
          (by simp)
      | some d =>
        exact ih (some d) (total + a) _ (by simp)
          (fun d2 _ => by simpa [countSweeps, List.filter, hp, isSweep] using h1 d rfl)
    | sweep =>
      cases dacc with
      | none =>
        simp only [buildPaymentsGo, hp]
        refine buildPaymentsGo_sweep_set rest p.address total _ ?_
        have := h2 rfl
        simp only [countSweeps, List.filter, hp, isSweep, List.length_cons] at this ⊢
        omega
      | some d => simp only [buildPaymentsGo, hp]

/-- C4 (amended): for every payee list with two or more sweep payees,
`Cmd::run` panics with "Cannot sweep to two addresses in the same
transaction!" — a process abort, not an `InvalidInput` error value — and it
does so after the account has already been fetched (`get_account` precedes
payee processing) but before any oracle or fee-config call. -/
theorem c4_two_sweeps_panic_after_account_fetch (fuel : Nat)
    (enc : BlockchainTxnPaymentV2 → Nat) (client : Client) (now : Nat)
    (pubkey : List Nat) (payees : List Payee) (oracle_window : Nat)
    (manual_fee : Option Nat) (h : 2 ≤ countSweeps payees) :
    runPay fuel enc client now pubkey payees oracle_window manual_fee =
      ([ClientCall.getAccount], some (Except.error PayFailure.panicTwoSweeps)) := by
  have hb : buildPayments payees = Except.error PayFailure.panicTwoSweeps :=
    buildPayments_two_sweeps payees none 0 [] (fun _ => h) (by simp)
  simp only [runPay, hb]

/-- Closed instance for `c4_two_sweeps_panic_after_account_fetch` at a
concrete two-sweep payee list. -/
theorem c4_two_sweeps_panic_after_account_fetch_witness :
    2 ≤ countSweeps [⟨[3], Amount.sweep⟩, ⟨[4], Amount.sweep⟩] ∧
    runPay 2 (fun _ => 1) c4Client 5 [9] [⟨[3], Amount.sweep⟩, ⟨[4], Amount.sweep⟩] 7
        (some 3) =
      ([ClientCall.getAccount], some (Except.error PayFailure.panicTwoSweeps)) :=
  ⟨by decide,
   c4_two_sweeps_panic_after_account_fetch 2 (fun _ => 1) c4Client 5 [9]
     [⟨[3], Amount.sweep⟩, ⟨[4], Amount.sweep⟩] 7 (some 3) (by decide)⟩

/-- C4 counterexample to the claim as stated: on a concrete two-sweep input
the operation does not produce an `InvalidInput` error value — it panics
(`PayFailure.panicTwoSweeps` models the `panic!`) — and the recorded call
trace already contains the `get_account` network call, so the failure is not
detected "before any oracle or account call": the account call precedes it
(no oracle call is made). -/
theorem c4_two_sweeps_counterexample :
    runPay 1 (fun _ => 0) c4Client 0 [0] [⟨[1], Amount.sweep⟩, ⟨[2], Amount.sweep⟩] 120
        none =
      ([ClientCall.getAccount], some (Except.error PayFailure.panicTwoSweeps)) := by
  decide

/- ===================== C7: frame of fee / sweep resolution ===================== -/

theorem frameOK_refl (dest : List Nat) (ps : List Payment) : FrameOK dest ps ps :=
  ⟨rfl, fun _ _ _ => ⟨rfl, fun _ => rfl⟩⟩

/-- One pass of the sweep-update loop preserves the frame relation: it touches
only payments whose payee is the sweep destination. -/
theorem frameOK_update (dest : List Nat) (a : Nat) (orig cur : List Payment)
    (h : FrameOK dest orig cur) : FrameOK dest orig (updateSweep dest a cur) := by
  obtain ⟨hlen, hp⟩ := h
  refine ⟨by simp [updateSweep, hlen], ?_⟩
  intro i hi hi2
  have hi2' : i < cur.length := by simpa [updateSweep] using hi2
  have hmain := hp i hi hi2'
  constructor
  · simp only [updateSweep, List.getElem_map]
    split
    · exact hmain.1
    · exact hmain.1
  · intro hne
    simp only [updateSweep, List.getElem_map]
    split
    · rename_i hcond
      exact absurd (hmain.1 ▸ hcond) hne
    · exact hmain.2 hne

/-- The sweep loop mutates only the sweep payments' amounts: the payer, nonce
and signature fields pass through unchanged and the frame relation on the
payments is preserved. -/
theorem sweepLoop_frame (enc : BlockchainTxnPaymentV2 → Nat) (client : Client)
    (now : Nat) (account : Account) (pt ow : Nat) (dest : List Nat)
    (orig : List Payment) :
    ∀ (fuel : Nat) (txn : BlockchainTxnPaymentV2) (fee : Nat) (cs : List ClientCall)
      (txn' : BlockchainTxnPaymentV2),
      sweepLoop fuel enc client now account pt ow dest txn fee =
        (cs, some (Except.ok txn')) →
      FrameOK dest orig txn.payments →
      txn'.payer = txn.payer ∧ txn'.nonce = txn.nonce ∧ txn'.signature = txn.signature ∧
      FrameOK dest orig txn'.payments := by
  intro fuel
  induction fuel with
  | zero =>
    intro txn fee cs txn' h hF
    simp [sweepLoop] at h
  | succ n ih =>
    intro txn fee cs txn' h hF
    simp only [sweepLoop] at h
    split at h
    · exact absurd (congrArg Prod.snd h) (by simp)
    · split at h
      · have h2 := congrArg Prod.snd h
        simp only [Option.some.injEq, Except.ok.injEq] at h2
        subst h2
        rename_i amt heq hnf
        exact ⟨rfl, rfl, rfl, frameOK_update dest amt orig txn.payments hF⟩
      · rename_i amt heq hnf
        simp only [Prod.mk.injEq] at h
        have h3 : sweepLoop n enc client now account pt ow dest
            { txn with payments := updateSweep dest amt txn.payments }
            (BlockchainTxnPaymentV2.txnFee enc
              { txn with payments := updateSweep dest amt txn.payments }
              client.txn_fee_config) =
            ((sweepLoop n enc client now account pt ow dest
              { txn with payments := updateSweep dest amt txn.payments }
              (BlockchainTxnPaymentV2.txnFee enc
                { txn with payments := updateSweep dest amt txn.payments }
                client.txn_fee_config)).1,
             some (Except.ok txn')) := by
          rw [← h.2]
        exact ih { txn with payments := updateSweep dest amt txn.payments } _ _ _ h3
          (frameOK_update dest amt orig txn.payments hF)

/-- C7 (amended): throughout fee and sweep resolution the only draft fields
mutated are the fee field and the amounts of payments whose payee equals the
sweep destination.  Every payment whose payee differs from the sweep
destination keeps exactly the payment it was constructed with; payees,
payment count, payer, nonce and (pre-signing) signature are unchanged.  When
the sweep payee's address also occurs as a fixed-amount payee, that fixed
payment's amount is NOT protected (see the counterexample): the update loop
overwrites every payment whose payee equals the sweep destination. -/
theorem c7_only_fee_and_sweep_amount_mutated (fuel : Nat)
    (enc : BlockchainTxnPaymentV2 → Nat) (client : Client) (now : Nat)
    (pubkey : List Nat) (payees : List Payee) (oracle_window : Nat)
    (manual_fee : Option Nat) (st : PayState) (cs : List ClientCall)
    (txn : BlockchainTxnPaymentV2)
    (hb : buildPayments payees = Except.ok st)
    (h : runPay fuel enc client now pubkey payees oracle_window manual_fee =
      (cs, some (Except.ok txn))) :
    txn.payer = pubkey ∧ txn.nonce = client.account.speculative_nonce + 1 ∧
    txn.signature = [] ∧ txn.payments.length = st.payments.length ∧
    ∀ i (hi : i < st.payments.length) (hi2 : i < txn.payments.length),
      txn.payments[i].payee = st.payments[i].payee ∧
      (st.sweep_destination ≠ some (st.payments[i].payee) →
        txn.payments[i] = st.payments[i]) := by
  simp only [runPay, hb] at h
  simp only [Prod.mk.injEq] at h
  have h2 := h.2
  simp only [resolveFee] at h2
  split at h2
  · -- manual fee supplied
    split at h2
    · -- sweep destination present
      rename_i d hdest
      split at h2
      · simp at h2
      · rename_i amt heq
        simp only [Option.some.injEq, Except.ok.injEq] at h2
        subst h2
        obtain ⟨hlen, hp⟩ :=
          frameOK_update d amt st.payments st.payments (frameOK_refl d st.payments)
        refine ⟨rfl, rfl, rfl, hlen, ?_⟩
        intro i hi hi2
        have hmain := hp i hi hi2
        exact ⟨hmain.1, fun hne => hmain.2 fun hEq => hne (by rw [hdest, hEq])⟩
    · -- no sweep destination
      simp only [Option.some.injEq, Except.ok.injEq] at h2
      subst h2
      exact ⟨rfl, rfl, rfl, rfl, fun i hi hi2 => ⟨rfl, fun _ => rfl⟩⟩
  · -- no manual fee
    split at h2
    · -- no sweep destination
      simp only [Option.some.injEq, Except.ok.injEq] at h2
      subst h2
      exact ⟨rfl, rfl, rfl, rfl, fun i hi hi2 => ⟨rfl, fun _ => rfl⟩⟩
    · -- sweep destination present: the loop
      rename_i d hdest
      have h3 : sweepLoop fuel enc client now client.account st.pay_total oracle_window d
          { payer := pubkey, payments := st.payments,
            nonce := client.account.speculative_nonce + 1, fee := 0, signature := [] }
          (BlockchainTxnPaymentV2.txnFee enc
            { payer := pubkey, payments := st.payments,
              nonce := client.account.speculative_nonce + 1, fee := 0, signature := [] }
            client.txn_fee_config) =
          ((sweepLoop fuel enc client now client.account st.pay_total oracle_window d
            { payer := pubkey, payments := st.payments,
              nonce := client.account.speculative_nonce + 1, fee := 0, signature := [] }
            (BlockchainTxnPaymentV2.txnFee enc
              { payer := pubkey, payments := st.payments,
                nonce := client.account.speculative_nonce + 1, fee := 0, signature := [] }
              client.txn_fee_config)).1,
           some (Except.ok txn)) := by
        rw [← h2]
      obtain ⟨hpayer, hnonce, hsig, hlen, hp⟩ :
          txn.payer = pubkey ∧ txn.nonce = client.account.speculative_nonce + 1 ∧
          txn.signature = [] ∧ txn.payments.length = st.payments.length ∧
          ∀ i (hi : i < st.payments.length) (hi2 : i < txn.payments.length),
            (txn.payments[i].payee = st.payments[i].payee) ∧
            (st.payments[i].payee ≠ d → txn.payments[i] = st.payments[i]) := by
        have := sweepLoop_frame enc client now client.account st.pay_total oracle_window d
          st.payments fuel _ _ _ txn h3 (frameOK_refl d st.payments)
        exact ⟨this.1, this.2.1, this.2.2.1, this.2.2.2.1, this.2.2.2.2⟩
      refine ⟨hpayer, hnonce, hsig, hlen, ?_⟩
      intro i hi hi2
      have hmain := hp i hi hi2
      exact ⟨hmain.1, fun hne => hmain.2 fun hEq => hne (by rw [hdest, hEq])⟩

/-- C7 counterexample to the claim as stated: when the sweep payee's address
(`[7]`) also occurs as a fixed-amount payee, the fixed payment does NOT keep
the amount it was constructed with.  Payee list `[7]=7 bones, [7]=sweep`,
manual fee 1, balance 100, data credits 5: the update loop writes the sweep
amount 93 into BOTH payments, so the fixed payment constructed as
`{payee [7], amount 7}` ends as `{payee [7], amount 93}` (second conjunct:
these differ). -/
theorem c7_duplicate_sweep_address_counterexample :
    (runPay 1 (fun _ => 0) c7Client 0 [0]
        [⟨[7], Amount.hnt 7⟩, ⟨[7], Amount.sweep⟩] 120 (some 1)).2 =
      some (Except.ok
        { payer := [0],
          payments := [{ payee := [7], amount := 93 }, { payee := [7], amount := 93 }],
          nonce := 1, fee := 1, signature := [] }) ∧
    ({ payee := [7], amount := 93 } : Payment) ≠ { payee := [7], amount := 7 } := by
  decide

/-- Closed instance for `c7_only_fee_and_sweep_amount_mutated`: distinct
addresses, manual fee 1, sweep to `[6]`; the fixed payment to `[5]` keeps its
constructed amount 7 and the payer field is the wallet key. -/
theorem c7_only_fee_and_sweep_amount_mutated_witness :
    buildPayments [⟨[5], Amount.hnt 7⟩, ⟨[6], Amount.sweep⟩] =
      Except.ok { sweep_destination := some [6], pay_total := 7,
                  payments := [{ payee := [5], amount := 7 }, { payee := [6], amount := 0 }] } ∧
    runPay 1 (fun _ => 0) c7Client 0 [0]
        [⟨[5], Amount.hnt 7⟩, ⟨[6], Amount.sweep⟩] 120 (some 1) =
      ([ClientCall.getAccount],
       some (Except.ok
         { payer := [0],
           payments := [{ payee := [5], amount := 7 }, { payee := [6], amount := 93 }],
           nonce := 1, fee := 1, signature := [] })) ∧
    ({ payer := [0],
       payments := [{ payee := [5], amount := 7 }, { payee := [6], amount := 93 }],
       nonce := 1, fee := 1, signature := [] } : BlockchainTxnPaymentV2).payer = [0] :=
  ⟨by decide, by decide,
   (c7_only_fee_and_sweep_amount_mutated 1 (fun _ => 0) c7Client 0 [0]
     [⟨[5], Amount.hnt 7⟩, ⟨[6], Amount.sweep⟩] 120 (some 1)
     { sweep_destination := some [6], pay_total := 7,
       payments := [{ payee := [5], amount := 7 }, { payee := [6], amount := 0 }] }
     [ClientCall.getAccount]
     { payer := [0],
       payments := [{ payee := [5], amount := 7 }, { payee := [6], amount := 93 }],
       nonce := 1, fee := 1, signature := [] }
     (by decide) (by decide)).1⟩

/- ===================== Mnemonic lemmas ===================== -/

/-- Any index returned by the scanning loop is below `start + length`. -/
theorem findWordAux_lt_length (uw : List Char) :
    ∀ (l : List (List Char)) (k i : Nat), findWordAux uw l k = some i → i < k + l.length := by
  intro l
  induction l with
  | nil => intro k i h; simp [findWordAux] at h
  | cons w rest ih =>
    intro k i h
    simp only [findWordAux] at h
    split at h
    · simp only [Option.some.injEq] at h
      simp [← h]
    · split at h
      · simp only [Option.some.injEq] at h
        simp [← h]
      · have := ih (k + 1) i h
        simp only [List.length_cons]
        omega

/-- `find_english_word` only returns indices inside the wordlist. -/
theorem find_english_word_lt (wordlist : List (List Char)) (w : List Char) (i : Nat)
    (h : find_english_word wordlist w = some i) : i < wordlist.length := by
  have := findWordAux_lt_length (w.map asciiLower) wordlist 0 i h
  omega

/-- The binary rendering of `n < 2^k` has at most `k` digits. -/
theorem binDigitsAux_length_le :
    ∀ (fuel n k : Nat), n ≤ fuel → n < 2 ^ k → (binDigitsAux fuel n).length ≤ k := by
  intro fuel
  induction fuel with
  | zero =>
    intro n k h1 h2
    simp [binDigitsAux]
  | succ f ih =>
    intro n k h1 h2
    by_cases hn : n = 0
    · simp [binDigitsAux, hn]
    · simp only [binDigitsAux, if_neg hn, List.length_append, List.length_singleton]
      cases k with
      | zero =>
        simp only [pow_zero] at h2
        omega
      | succ j =>
        have hpow : 2 ^ (j + 1) = 2 * 2 ^ j := by ring
        have hdiv : n / 2 < 2 ^ j := by omega
        have := ih (n / 2) j (by omega) hdiv
        omega

/-- Indices below 2048 render as exactly 11 binary digits. -/
theorem formatBinary11_length (n : Nat) (h : n < 2048) : (formatBinary11 n).length = 11 := by
  have hle : (natToBinary n).length ≤ 11 := by
    unfold natToBinary
    by_cases hn : n = 0
    · simp [hn]
    · simp only [if_neg hn]
      exact binDigitsAux_length_le n n 11 le_rfl (by norm_num; omega)
  simp only [formatBinary11, List.length_append, List.length_replicate]
  omega

/-- When every lookup lands (wordlist of at most 2048 entries), the collected
bit string has 11 bits per word. -/
theorem collectBits_length (wordlist : List (List Char)) (hwl : wordlist.length ≤ 2048) :
    ∀ (ws : List (List Char)) (bits : List Char),
      collectBits wordlist ws = Except.ok bits → bits.length = 11 * ws.length := by
  intro ws
  induction ws with
  | nil =>
    intro bits h
    simp only [collectBits, Except.ok.injEq] at h
    simp [← h]
  | cons w rest ih =>
    intro bits h
    simp only [collectBits] at h
    split at h
    · exact absurd h (by simp)
    · rename_i idx hidx
      split at h
      · exact absurd h (by simp)
      · rename_i rest2 hrest
        simp only [Except.ok.injEq] at h
        have hi : idx < 2048 :=
          lt_of_lt_of_le (find_english_word_lt wordlist w idx hidx) hwl
        subst h
        simp only [List.length_append, formatBinary11_length idx hi, ih rest2 hrest,
          List.length_cons]
        ring

/- ===================== C8: word count and checksum errors ===================== -/

/-- C8: `mnemonic_to_entropy` fails with the invalid-word-count error for
every input whose length is not exactly 12 — and does so uniformly in the
wordlist (the result does not depend on it), i.e. before any wordlist lookup;
and for every 12-word input whose lookups all succeed (wordlist of at most
2048 entries, hence 132 collected bits) with reconstructed checksum bits
(the 4 characters past the divider at 128) different from "0000", it fails
with the checksum error. -/
theorem c8_word_count_and_checksum :
    (∀ (wordlist words : List (List Char)), words.length ≠ 12 →
      mnemonic_to_entropy wordlist words = Except.error MnemonicError.invalidWordCount) ∧
    (∀ (wordlist words : List (List Char)) (bits : List Char),
      words.length = 12 → wordlist.length ≤ 2048 →
      collectBits wordlist words = Except.ok bits →
      bits.drop 128 ≠ ['0', '0', '0', '0'] →
      mnemonic_to_entropy wordlist words = Except.error MnemonicError.invalidChecksum) := by
  constructor
  · intro wl words h
    simp [mnemonic_to_entropy, h]
  · intro wl words bits h12 hwl hcb hck
    have hlen : bits.length = 132 := by
      have h := collectBits_length wl hwl words bits hcb
      rw [h12] at h
      omega
    have hdiv : bits.length * 32 / 33 = 128 := by rw [hlen]
    simp only [mnemonic_to_entropy, h12, hcb, hdiv]
    simp [hck]

/-- Closed instance for `c8_word_count_and_checksum`: an 11-word input fails
with the invalid-word-count error (on a wordlist that does not even contain
the word), and 12 copies of "acid" over the wordlist ["able", "acid"] produce
checksum bits "0001" and fail with the checksum error. -/
theorem c8_word_count_and_checksum_witness :
    (List.replicate 11 (['x'] : List Char)).length ≠ 12 ∧
    mnemonic_to_entropy [['x', 'y', 'z', 'w']] (List.replicate 11 ['x']) =
      Except.error MnemonicError.invalidWordCount ∧
    collectBits [['a', 'b', 'l', 'e'], ['a', 'c', 'i', 'd']]
        (List.replicate 12 ['a', 'c', 'i', 'd']) =
      Except.ok (List.flatten (List.replicate 12 (List.replicate 10 '0' ++ ['1']))) ∧
    mnemonic_to_entropy [['a', 'b', 'l', 'e'], ['a', 'c', 'i', 'd']]
        (List.replicate 12 ['a', 'c', 'i', 'd']) =
      Except.error MnemonicError.invalidChecksum :=
  ⟨by decide,
   c8_word_count_and_checksum.1 [['x', 'y', 'z', 'w']] (List.replicate 11 ['x']) (by decide),
   by decide,
   c8_word_count_and_checksum.2 [['a', 'b', 'l', 'e'], ['a', 'c', 'i', 'd']]
     (List.replicate 12 ['a', 'c', 'i', 'd'])
     (List.flatten (List.replicate 12 (List.replicate 10 '0' ++ ['1'])))
     (by decide) (by decide) (by decide) (by decide)⟩

/- ===================== C9: 4-letter prefix lookup ===================== -/

/-- If no wordlist entry before position `i` matches (neither by 4-prefix nor
by equality) and the entry at `i` matches, the scan returns `start + i`. -/
theorem findWordAux_found (uw : List Char) :
    ∀ (l : List (List Char)) (k i : Nat) (hi : i < l.length),
      (∀ j (hj : j < l.length), j < i →
        ¬(4 ≤ uw.length ∧ 4 ≤ l[j].length ∧ uw.take 4 = l[j].take 4) ∧ uw ≠ l[j]) →
      ((4 ≤ uw.length ∧ 4 ≤ l[i].length ∧ uw.take 4 = l[i].take 4) ∨ uw = l[i]) →
      findWordAux uw l k = some (k + i) := by
  intro l
  induction l with
  | nil => intro k i hi; exact absurd hi (by simp)
  | cons w rest ih =>
    intro k i hi hpre hmatch
    cases i with
    | zero =>
      simp only [List.getElem_cons_zero] at hmatch
      simp only [findWordAux]
      rcases hmatch with hm | hm
      · rw [if_pos hm]
        simp
      · by_cases hc : 4 ≤ uw.length ∧ 4 ≤ w.length ∧ uw.take 4 = w.take 4
        · rw [if_pos hc]
          simp
        · rw [if_neg hc, if_pos hm]
          simp
    | succ i2 =>
      have hhead := hpre 0 (by simp) (by omega)
      simp only [List.getElem_cons_zero] at hhead
      simp only [findWordAux]
      rw [if_neg hhead.1, if_neg hhead.2]
      have hi2 : i2 < rest.length := by simpa using hi
      have hpre2 : ∀ j (hj : j < rest.length), j < i2 →
          ¬(4 ≤ uw.length ∧ 4 ≤ rest[j].length ∧ uw.take 4 = rest[j].take 4) ∧
            uw ≠ rest[j] := by
        intro j hj hji
        have := hpre (j + 1) (by simpa using Nat.succ_lt_succ hj) (by omega)
        simpa using this
      have hmatch2 : (4 ≤ uw.length ∧ 4 ≤ rest[i2].length ∧ uw.take 4 = rest[i2].take 4) ∨
          uw = rest[i2] := by
        simpa using hmatch
      rw [ih (k + 1) i2 hi2 hpre2 hmatch2]
      congr 1
      omega

/-- When every word of `ws` is found and its 4-letter prefix is found at the
same index, the collected bit strings coincide. -/
theorem collectBits_take4 (wordlist : List (List Char)) :
    ∀ ws : List (List Char),
      (∀ w ∈ ws, ∃ idx, find_english_word wordlist w = some idx ∧
        find_english_word wordlist (w.take 4) = some idx) →
      collectBits wordlist (ws.map fun w => w.take 4) = collectBits wordlist ws := by
  intro ws
  induction ws with
  | nil => intro h; rfl
  | cons w rest ih =>
    intro h
    obtain ⟨idx, hfull, hpref⟩ := h w (by simp)
    simp only [List.map_cons, collectBits, hfull, hpref]
    rw [ih fun w2 hw2 => h w2 (by simp [hw2])]

/-- C9: over a wordlist with the BIP39 dictionary property asserted by the
spec — entries lowercase, and entries of length ≥ 4 pairwise distinguished by
their first 4 letters — looking up the 4-letter prefix of any entry of length
≥ 4 returns the same index as looking up the entry itself, case-insensitively
(any input whose ASCII-lowercasing equals the prefix or the full entry finds
that index); consequently a 12-word mnemonic given as 4-letter prefixes
decodes to exactly the same result as its full-word form. -/
theorem c9_prefix_lookup (wordlist : List (List Char))
    (hlow : ∀ w ∈ wordlist, w.map asciiLower = w)
    (hpre : ∀ i (hi : i < wordlist.length), ∀ j (hj : j < wordlist.length),
      4 ≤ wordlist[i].length → 4 ≤ wordlist[j].length →
      wordlist[i].take 4 = wordlist[j].take 4 → i = j)
    (hnd : wordlist.Nodup) :
    (∀ i (hi : i < wordlist.length), 4 ≤ wordlist[i].length →
      (∀ u : List Char,
        (u.map asciiLower = wordlist[i].take 4 ∨ u.map asciiLower = wordlist[i]) →
        find_english_word wordlist u = some i) ∧
      find_english_word wordlist (wordlist[i].take 4) = some i ∧
      find_english_word wordlist wordlist[i] = some i) ∧
    (∀ words : List (List Char), words.length = 12 →
      (∀ w ∈ words, w ∈ wordlist ∧ 4 ≤ w.length) →
      mnemonic_to_entropy wordlist (words.map fun w => w.take 4) =
        mnemonic_to_entropy wordlist words) := by
  have core : ∀ i (hi : i < wordlist.length), 4 ≤ wordlist[i].length →
      ∀ u : List Char,
        (u.map asciiLower = wordlist[i].take 4 ∨ u.map asciiLower = wordlist[i]) →
        find_english_word wordlist u = some i := by
    intro i hi hlen u hu
    unfold find_english_word
    have key : findWordAux (u.map asciiLower) wordlist 0 = some (0 + i) := by
      apply findWordAux_found (u.map asciiLower) wordlist 0 i hi
      · intro j hj hji
        constructor
        · rintro ⟨h1, h2, h3⟩
          rcases hu with hu | hu
          · rw [hu, List.take_take] at h3
            simp only [min_self] at h3
            exact absurd (hpre i hi j hj hlen h2 h3) (by omega)
          · rw [hu] at h3
            exact absurd (hpre i hi j hj hlen h2 h3) (by omega)
        · intro hEq
          rcases hu with hu | hu
          · rw [hu] at hEq
            have hjlen : 4 ≤ wordlist[j].length := by
              rw [← hEq]
              simp [List.length_take]
              omega
            have hpp : wordlist[i].take 4 = wordlist[j].take 4 := by
              rw [← hEq, List.take_take]
              simp
            exact absurd (hpre i hi j hj hlen hjlen hpp) (by omega)
          · rw [hu] at hEq
            have hfin : (⟨i, hi⟩ : Fin wordlist.length) = ⟨j, hj⟩ :=
              hnd.get_inj_iff.mp (by simpa [List.get_eq_getElem] using hEq)
            have hij : i = j := congrArg Fin.val hfin
            omega
      · rcases hu with hu | hu
        · left
          refine ⟨?_, hlen, ?_⟩
          · rw [hu]
            simp [List.length_take]
            omega
          · rw [hu, List.take_take]
            simp
        · right
          exact hu
    simpa using key
  refine ⟨?_, ?_⟩
  · intro i hi hlen
    have hm : wordlist[i] ∈ wordlist := List.getElem_mem hi
    refine ⟨core i hi hlen, ?_, ?_⟩
    · refine core i hi hlen _ (Or.inl ?_)
      calc (wordlist[i].take 4).map asciiLower
          = (wordlist[i].map asciiLower).take 4 := by rw [List.map_take]
        _ = wordlist[i].take 4 := by rw [hlow _ hm]
    · exact core i hi hlen _ (Or.inr (hlow _ hm))
  · intro words h12 hw
    have hfind : ∀ w ∈ words, ∃ idx, find_english_word wordlist w = some idx ∧
        find_english_word wordlist (w.take 4) = some idx := by
      intro w hwmem
      obtain ⟨hmem, hwlen⟩ := (hw w hwmem)
      obtain ⟨i, hi, heq⟩ := List.getElem_of_mem hmem
      subst heq
      exact ⟨i, core i hi hwlen _ (Or.inr (hlow _ hmem)),
        core i hi hwlen _ (Or.inl (by
          calc (wordlist[i].take 4).map asciiLower
              = (wordlist[i].map asciiLower).take 4 := by rw [List.map_take]
            _ = wordlist[i].take 4 := by rw [hlow _ hmem]))⟩
    have hcb := collectBits_take4 wordlist words hfind
    simp only [mnemonic_to_entropy, List.length_map, hcb]

/-- Closed instance for `c9_prefix_lookup` over the wordlist
["able", "back", "cable", "damp"]: the prefix "cabl" and the full word
"cable" both resolve to index 2, and twelve copies of "cable" decode the same
whether given in full or as 4-letter prefixes. -/
theorem c9_prefix_lookup_witness :
    find_english_word [['a', 'b', 'l', 'e'], ['b', 'a', 'c', 'k'],
        ['c', 'a', 'b', 'l', 'e'], ['d', 'a', 'm', 'p']] ['c', 'a', 'b', 'l'] = some 2 ∧
    find_english_word [['a', 'b', 'l', 'e'], ['b', 'a', 'c', 'k'],
        ['c', 'a', 'b', 'l', 'e'], ['d', 'a', 'm', 'p']] ['c', 'a', 'b', 'l', 'e'] = some 2 ∧
    mnemonic_to_entropy [['a', 'b', 'l', 'e'], ['b', 'a', 'c', 'k'],
        ['c', 'a', 'b', 'l', 'e'], ['d', 'a', 'm', 'p']]
        ((List.replicate 12 ['c', 'a', 'b', 'l', 'e']).map fun w => w.take 4) =
      mnemonic_to_entropy [['a', 'b', 'l', 'e'], ['b', 'a', 'c', 'k'],
        ['c', 'a', 'b', 'l', 'e'], ['d', 'a', 'm', 'p']]
        (List.replicate 12 ['c', 'a', 'b', 'l', 'e']) :=
  ⟨((c9_prefix_lookup [['a', 'b', 'l', 'e'], ['b', 'a', 'c', 'k'],
      ['c', 'a', 'b', 'l', 'e'], ['d', 'a', 'm', 'p']]
      (by decide) (by decide) (by decide)).1 2 (by decide) (by decide)).2.1,
   ((c9_prefix_lookup [['a', 'b', 'l', 'e'], ['b', 'a', 'c', 'k'],
      ['c', 'a', 'b', 'l', 'e'], ['d', 'a', 'm', 'p']]
      (by decide) (by decide) (by decide)).1 2 (by decide) (by decide)).2.2,
   (c9_prefix_lookup [['a', 'b', 'l', 'e'], ['b', 'a', 'c', 'k'],
      ['c', 'a', 'b', 'l', 'e'], ['d', 'a', 'm', 'p']]
      (by decide) (by decide) (by decide)).2
     (List.replicate 12 ['c', 'a', 'b', 'l', 'e']) (by decide) (by decide)⟩

/- ===================== C10: ASCII totality and word-not-found ===================== -/

theorem asciiLowerByte_lt_128 (b : Nat) (h : b < 128) : asciiLowerByte b < 128 := by
  unfold asciiLowerByte
  split <;> omega

/-- In an all-ASCII byte string every index is a character boundary. -/
theorem isCharBoundary_ascii (s : List Nat) (h : ∀ b ∈ s, b < 128) (i : Nat) :
    isCharBoundary s i = true := by
  unfold isCharBoundary
  cases hd : s.drop i with
  | nil => rfl
  | cons b rest =>
    have hb : b ∈ s := List.mem_of_mem_drop (hd ▸ List.mem_cons_self b rest)
    have hlt := h b hb
    simp [show ¬(128 ≤ b) by omega]

/-- The byte-level scan never panics on all-ASCII input over an all-ASCII
wordlist: both `[..4]` slices fall on character boundaries. -/
theorem findWordBytesAux_ascii (uw : List Nat) (hu : ∀ b ∈ uw, b < 128) :
    ∀ (l : List (List Nat)) (k : Nat), (∀ w ∈ l, ∀ b ∈ w, b < 128) →
      findWordBytesAux uw l k ≠ Except.error () := by
  intro l
  induction l with
  | nil =>
    intro k h
    simp [findWordBytesAux]
  | cons w rest ih =>
    intro k h
    simp only [findWordBytesAux]
    split
    · rw [isCharBoundary_ascii uw hu 4, isCharBoundary_ascii w (h w (by simp)) 4]
      simp only [Bool.and_self, if_true]
      split
      · simp
      · split
        · simp
        · exact ih (k + 1) fun w2 hw2 => h w2 (by simp [hw2])
    · split
      · simp
      · exact ih (k + 1) fun w2 hw2 => h w2 (by simp [hw2])

/-- The first word whose lookup fails determines the error of `collectBits`. -/
theorem collectBits_first_not_found (wordlist : List (List Char)) :
    ∀ (ws : List (List Char)) (k : Nat) (hk : k < ws.length),
      find_english_word wordlist ws[k] = none →
      (∀ j (hj : j < ws.length), j < k → find_english_word wordlist ws[j] ≠ none) →
      collectBits wordlist ws = Except.error (MnemonicError.wordNotFound ws[k]) := by
  intro ws
  induction ws with
  | nil => intro k hk; exact absurd hk (by simp)
  | cons w rest ih =>
    intro k hk hnone hbefore
    cases k with
    | zero =>
      simp only [List.getElem_cons_zero] at hnone ⊢
      simp only [collectBits, hnone]
    | succ k2 =>
      have hw : find_english_word wordlist w ≠ none := by
        have := hbefore 0 (by simp) (by omega)
        simpa using this
      cases hfw : find_english_word wordlist w with
      | none => exact absurd hfw hw
      | some idx =>
        simp only [collectBits, hfw]
        have hk2 : k2 < rest.length := by simpa using hk
        have hnone2 : find_english_word wordlist rest[k2] = none := by simpa using hnone
        have hbefore2 : ∀ j (hj : j < rest.length), j < k2 →
            find_english_word wordlist rest[j] ≠ none := by
          intro j hj hjk
          have := hbefore (j + 1) (by simpa using Nat.succ_lt_succ hj) (by omega)
          simpa using this
        rw [ih k2 hk2 hnone2 hbefore2]
        simp

/-- C10: for all-ASCII input the byte slice `user_word[..4]` taken by
`find_english_word` always falls on a character boundary, so the byte-level
model never panics (first conjunct, over an all-ASCII wordlist); and a word
that matches no wordlist entry makes `mnemonic_to_entropy` return the
"Seed word not found" error naming that word, rather than panicking (second
conjunct, for the first unmatched word of a 12-word input). -/
theorem c10_ascii_total_and_unmatched_word_is_error :
    (∀ (wordlist : List (List Nat)) (u : List Nat),
      (∀ b ∈ u, b < 128) → (∀ w ∈ wordlist, ∀ b ∈ w, b < 128) →
      findWordBytes wordlist u ≠ Except.error ()) ∧
    (∀ (wordlist words : List (List Char)) (k : Nat) (hk : k < words.length),
      words.length = 12 →
      find_english_word wordlist words[k] = none →
      (∀ j (hj : j < words.length), j < k → find_english_word wordlist words[j] ≠ none) →
      mnemonic_to_entropy wordlist words =
        Except.error (MnemonicError.wordNotFound words[k])) := by
  constructor
  · intro wordlist u hu hwl
    unfold findWordBytes
    have hu2 : ∀ b ∈ u.map asciiLowerByte, b < 128 := by
      intro b hb
      obtain ⟨a, ha, rfl⟩ := List.mem_map.mp hb
      exact asciiLowerByte_lt_128 a (hu a ha)
    exact findWordBytesAux_ascii (u.map asciiLowerByte) hu2 wordlist 0 hwl
  · intro wordlist words k hk h12 hnone hbefore
    have hcb := collectBits_first_not_found wordlist words k hk hnone hbefore
    simp [mnemonic_to_entropy, h12, hcb]

/-- Closed instance for `c10_ascii_total_and_unmatched_word_is_error`: the
ASCII word "abcd" is scanned against the ASCII wordlist ["able"] without a
panic, and a 12-word input starting with the unmatched word "z" decodes to
the word-not-found error naming "z". -/
theorem c10_ascii_total_and_unmatched_word_is_error_witness :
    findWordBytes [[97, 98, 108, 101]] [97, 98, 99, 100] ≠ Except.error () ∧
    mnemonic_to_entropy [['a', 'b', 'l', 'e']]
        (['z'] :: List.replicate 11 ['a', 'b', 'l', 'e']) =
      Except.error (MnemonicError.wordNotFound ['z']) :=
  ⟨c10_ascii_total_and_unmatched_word_is_error.1 [[97, 98, 108, 101]] [97, 98, 99, 100]
     (by decide) (by decide),
   c10_ascii_total_and_unmatched_word_is_error.2 [['a', 'b', 'l', 'e']]
     (['z'] :: List.replicate 11 ['a', 'b', 'l', 'e']) 0 (by decide) (by decide)
     (by decide) (by decide)⟩
